import Mathlib

/-!
Shallow embedding of the HotLabel task-distribution engine
(src/app/services/task_service.py, src/app/worker.py, src/app/utils/redis_client.py,
src/app/models/task.py, src/app/models/response.py, src/app/models/user_profile.py).

Modelling conventions:
* The Redis store is an association list `List (String × TaskInDB)` from task id to
  task record (keys are modelled without the "task:" prefix); the sorted-set task
  queue is an association list `List (String × ℚ)` from task id to priority score.
  `zadd` is an upsert (`setKey`).
* Timestamps are rationals (seconds); `datetime.utcnow()` becomes an explicit
  `now : ℚ` argument.  `timedelta(minutes=10)` is 600 seconds.
* Python floats are modelled as exact rationals `ℚ`; machine integers as `ℤ`/`ℕ`.
* Python string truthiness (`if s:`) is `truthyStr`: a string field is truthy
  iff present and nonempty.
* Python dicts keyed by strings become association lists; `x in d` (key
  membership) becomes membership in the mapped first components.
-/

namespace HotLabel

/-- Replace the value at key `k` (first occurrence) in an association list,
appending when absent.  This is the write-through used to model both
`store_json` on task keys and sorted-set `zadd` upserts. -/
def setKey {α : Type} (m : List (String × α)) (k : String) (v : α) : List (String × α) :=
  match m with
  | [] => [(k, v)]
  | (k₁, v₁) :: rest => if k₁ = k then (k, v) :: rest else (k₁, v₁) :: setKey rest k v

/-- Look up the value at key `k` (first occurrence) in an association list;
models `redis.get` / `get_json` returning `None` for an absent key. -/
def lookupKey {α : Type} (k : String) : List (String × α) → Option α
  | [] => none
  | (k₁, v) :: rest => if k₁ = k then some v else lookupKey k rest

/-- Python truthiness of an optional string field (`if task_data.get("..."):`):
truthy iff present and nonempty. -/
def truthyStr : Option String → Bool
  | none => false
  | some s => s != ""

/-- Python `abs` on rationals. -/
def ratAbs (q : ℚ) : ℚ := if q < 0 then -q else q

/-- Python `min` on rationals (returns the first argument on ties). -/
def ratMin (a b : ℚ) : ℚ := if a ≤ b then a else b

/-- Python `max` on rationals (returns the first argument on ties). -/
def ratMax (a b : ℚ) : ℚ := if b ≤ a then a else b

/-- Task lifecycle status (src/app/models/task.py, `TaskStatus`). -/
inductive TaskStatus
  | pending
  | assigned
  | completed
  | rejected
  | expired
deriving DecidableEq

/-- Quality bucket of a label (src/app/models/response.py, `LabelQuality`). -/
inductive LabelQuality
  | high
  | medium
  | low
  | spam
deriving DecidableEq

/-- Stored task record (src/app/models/task.py, `TaskInDB`).  Content, question
and requirements payloads are opaque to the engine and omitted; `correct_answer`
models the optional raw-dict key read by `_check_response_quality`.  The unused
record-level `priority` field is omitted (queue priority lives in the sorted set). -/
structure TaskInDB where
  task_id : String
  track_id : String
  language : String
  category : String
  type : String
  topic : String
  complexity : ℤ
  status : TaskStatus
  created_at : ℚ
  updated_at : ℚ
  completed_at : Option ℚ := none
  assigned_to : Option String := none
  assigned_at : Option ℚ := none
  expires_at : Option ℚ := none
  correct_answer : Option String := none
deriving DecidableEq

/-- Engine state: the task store (key → record) and the priority queue
sorted set `queue:tasks` (task id → score). -/
structure EngineState where
  store : List (String × TaskInDB)
  queue : List (String × ℚ)
deriving DecidableEq

/-- Stored response record (src/app/models/response.py, `ResponseInDB`),
restricted to the fields the quality check reads and writes. -/
structure ResponseRec where
  response_id : String
  task_id : String
  session_id : String
  response_data : String
  response_time_ms : ℤ
  quality_score : Option ℚ := none
  quality_level : Option LabelQuality := none
deriving DecidableEq

/-- Quality check of a response (src/app/services/task_service.py,
`TaskService._check_response_quality`).  Baseline 0.5; −0.2 when
`response_time_ms < 1000`; −0.3 when the task dict carries a truthy
`correct_answer` the payload does not equal; clamped to [0, 1]. -/
def check_response_quality (response : ResponseRec) (correct_answer : Option String) : ℚ :=
  let score : ℚ := 1/2
  let score := if response.response_time_ms < 1000 then score - 2/10 else score
  let score :=
    if truthyStr correct_answer ∧ some response.response_data ≠ correct_answer then
      score - 3/10
    else score
  ratMax 0 (ratMin 1 score)

/-- Derivation of the quality bucket from the score (src/app/services/task_service.py,
`TaskService.process_response`, threshold chain). -/
def qualityLevel (quality_score : ℚ) : LabelQuality :=
  if 8/10 ≤ quality_score then .high
  else if 5/10 ≤ quality_score then .medium
  else if 2/10 ≤ quality_score then .low
  else .spam

/-- Response-side effect of `TaskService.process_response` on the stored response:
stamp the quality score and the derived quality level. -/
def process_response (response : ResponseRec) (correct_answer : Option String) : ResponseRec :=
  let q := check_response_quality response correct_answer
  { response with quality_score := some q, quality_level := some (qualityLevel q) }

/-- Persist a task record under the key derived from its own `task_id` field
(src/app/utils/redis_client.py, `RedisService.store_task`); a falsy `task_id`
aborts the write. -/
def store_task (store : List (String × TaskInDB)) (t : TaskInDB) : List (String × TaskInDB) :=
  if t.task_id = "" then store else setKey store t.task_id t

/-- Task-creation input (src/app/models/task.py, `TaskCreate`); the pydantic
validators replace an absent id with a generated uuid, so here both ids are
concrete strings. -/
structure TaskCreate where
  task_id : String
  track_id : String
  language : String
  category : String
  type : String
  topic : String
  complexity : ℤ
deriving DecidableEq

/-- Create and persist a new pending task (src/app/services/task_service.py,
`TaskService.create_task`); stats-counter increments are external side effects
outside the modelled state. -/
def create_task (s : EngineState) (now : ℚ) (tc : TaskCreate) : TaskInDB × EngineState :=
  let task_db : TaskInDB :=
    { task_id := tc.task_id
      track_id := tc.track_id
      language := tc.language
      category := tc.category
      type := tc.type
      topic := tc.topic
      complexity := tc.complexity
      status := .pending
      created_at := now
      updated_at := now }
  (task_db, { s with store := store_task s.store task_db })

/-- Enqueue a task for distribution (src/app/services/task_service.py,
`TaskService.queue_task` composed with `RedisService.add_task_to_queue`):
priority `10 − 2·complexity`, write-through store, then sorted-set upsert.
A falsy `task_id` aborts before any write. -/
def queue_task (s : EngineState) (t : TaskInDB) : EngineState :=
  let priority : ℚ := 10 - (t.complexity : ℚ) * 2
  if t.task_id = "" then s
  else
    { s with
      store := store_task s.store t
      queue := setKey s.queue t.task_id priority }

/-- Update a task's status (src/app/services/task_service.py,
`TaskService.update_task_status`): stamp the new status and `updated_at`,
stamp `completed_at` when completing, persist. -/
def update_task_status (s : EngineState) (now : ℚ) (task_id : String) (status : TaskStatus) :
    Option TaskInDB × EngineState :=
  match lookupKey task_id s.store with
  | none => (none, s)
  | some task_data =>
    let t₁ := { task_data with status := status, updated_at := now }
    let t₂ := if status = TaskStatus.completed then { t₁ with completed_at := some now } else t₁
    (some t₂, { s with store := store_task s.store t₂ })

/-- The lease mutation `assign_task` applies to the fetched record before
persisting it: status assigned, assignee, `assigned_at := now`,
`expires_at := now + 600` seconds (`timedelta(minutes=10)`). -/
def leaseStamp (task_data : TaskInDB) (session_id : String) (now : ℚ) : TaskInDB :=
  { task_data with
    status := TaskStatus.assigned
    assigned_to := some session_id
    assigned_at := some now
    expires_at := some (now + 600) }

/-- Assign a task to a user session (src/app/services/task_service.py,
`TaskService.assign_task`).  Denies when the task is already assigned to a
different (truthy) session; otherwise stamps the lease and persists. -/
def assign_task (s : EngineState) (now : ℚ) (task_id session_id : String) :
    Option TaskInDB × EngineState :=
  match lookupKey task_id s.store with
  | none => (none, s)
  | some task_data =>
    if task_data.status = TaskStatus.assigned ∧
        truthyStr task_data.assigned_to ∧ task_data.assigned_to ≠ some session_id then
      (none, s)
    else
      let t₁ := leaseStamp task_data session_id now
      (some t₁, { s with store := store_task s.store t₁ })

/-- List tasks with optional status filtering: the inner accumulation loop of
`TaskService.list_tasks` over an already-sliced key list. -/
def listLoop (s : EngineState) (status : Option TaskStatus) :
    List String → List TaskInDB → List TaskInDB
  | [], acc => acc
  | k :: rest, acc =>
    match lookupKey k s.store with
    | none => listLoop s status rest acc
    | some t =>
      if status = none ∨ status = some t.status then
        listLoop s status rest (acc ++ [t])
      else
        listLoop s status rest acc

/-- List tasks (src/app/services/task_service.py, `TaskService.list_tasks`):
take all task keys, slice `[offset : offset + limit]`, then load and filter
by status. -/
def list_tasks (s : EngineState) (status : Option TaskStatus) (limit offset : ℕ) :
    List TaskInDB :=
  let task_ids := s.store.map Prod.fst
  let task_ids := (task_ids.drop offset).take limit
  listLoop s status task_ids []

/-- Per-record test of the expiry sweep (src/app/worker.py,
`process_expired_tasks`, loop body): an assigned task with a truthy
`expires_at` strictly in the past becomes expired with `updated_at := now`;
every other record is left alone (`none`). -/
def sweepTask (now : ℚ) (t : TaskInDB) : Option TaskInDB :=
  if t.status = TaskStatus.assigned ∧ t.expires_at.isSome then
    match t.expires_at with
    | none => none
    | some e => if e < now then some { t with status := .expired, updated_at := now } else none
  else none

/-- One iteration of the expiry sweep over a single store key: read the record,
mark it expired when due, persist at the same key, re-enqueue its (truthy)
`task_id` at fixed priority 5.0, and count it. -/
def sweepStep (now : ℚ) (sc : EngineState × ℕ) (key : String) : EngineState × ℕ :=
  match lookupKey key sc.1.store with
  | none => sc
  | some task_data =>
    match sweepTask now task_data with
    | none => sc
    | some t₁ =>
      ({ store := setKey sc.1.store key t₁
         queue := if t₁.task_id = "" then sc.1.queue else setKey sc.1.queue t₁.task_id 5 },
       sc.2 + 1)

/-- Expiry sweep (src/app/worker.py, `process_expired_tasks`): fold the
per-key step over a snapshot of all task keys, returning the new state and
the count of expired tasks. -/
def process_expired_tasks (s : EngineState) (now : ℚ) : EngineState × ℕ :=
  (s.store.map Prod.fst).foldl (sweepStep now) (s, 0)

/-- One iteration of the rebalancer over a queue snapshot entry
(src/app/worker.py, `analyze_task_distribution`, loop body).  `rc` is the
external per-task response counter `stats:task:{id}:responses`.  The
accumulator carries the live queue and the `(tasks_analyzed,
priorities_adjusted)` counters. -/
def rebalanceStep (store : List (String × TaskInDB)) (now : ℚ) (rc : String → ℕ)
    (acc : List (String × ℚ) × ℕ × ℕ) (entry : String × ℚ) : List (String × ℚ) × ℕ × ℕ :=
  match lookupKey entry.1 store with
  | none => acc
  | some t =>
    let age_hours := (now - t.created_at) / 3600
    let age_boost := ratMin (age_hours / 24) 5
    let response_boost := ratMax (5 - (rc entry.1 : ℚ)) 0
    let new_priority := entry.2 + age_boost + response_boost
    if 1 < ratAbs (new_priority - entry.2) then
      (setKey acc.1 entry.1 new_priority, acc.2.1 + 1, acc.2.2 + 1)
    else
      (acc.1, acc.2.1 + 1, acc.2.2)

/-- Rebalancer (src/app/worker.py, `analyze_task_distribution`): walk a
`zrange … withscores` snapshot of the queue, recompute each member's priority
from task age and response coverage, and upsert it back when the change
exceeds the 1.0 hysteresis.  Returns the new state with the two counters. -/
def analyze_task_distribution (s : EngineState) (now : ℚ) (rc : String → ℕ) :
    EngineState × ℕ × ℕ :=
  let res := s.queue.foldl (rebalanceStep s.store now rc) (s.queue, 0, 0)
  ({ s with queue := res.1 }, res.2)

/-- Browser attributes of a worker profile (src/app/models/user_profile.py,
`BrowserInfo`), restricted to the fields matching reads. -/
structure BrowserInfo where
  user_agent : String
  language : String
  preferred_languages : Option (List String) := none
deriving DecidableEq

/-- Expertise part of a worker profile (src/app/models/user_profile.py,
`ExpertiseProfile`); `domains` is an insertion-ordered dict. -/
structure ExpertiseProfile where
  domains : List (String × ℚ) := []
  languages : List (String × ℚ) := []
  technical_level : ℚ := 1/2
deriving DecidableEq

/-- Task-history summary of a worker profile (src/app/models/user_profile.py,
`TaskHistory`); the two completed maps are dicts keyed by type/category name. -/
structure TaskHistory where
  completed_tasks : ℤ := 0
  abandoned_tasks : ℤ := 0
  task_types_completed : List (String × ℤ) := []
  categories_completed : List (String × ℤ) := []
  quality_score : ℚ := 1/2
deriving DecidableEq

/-- Worker profile (src/app/models/user_profile.py, `UserProfile`), restricted
to the parts the matching engine reads (interests/behavioral are unused there). -/
structure UserProfile where
  session_id : String
  browser_info : BrowserInfo
  expertise : ExpertiseProfile := {}
  task_history : TaskHistory := {}
deriving DecidableEq

/-- A ranked match returned by `match_tasks_to_user`
(src/app/models/task.py, `UserTaskMatch`). -/
structure UserTaskMatch where
  task_id : String
  session_id : String
  match_score : ℚ
  match_reasons : List String
deriving DecidableEq

/-- Insert into a list sorted descending by `key`, keeping earlier elements
first among equal keys: one step of the stable descending sort that models
Python `sorted(..., reverse=True)` / `list.sort(..., reverse=True)`. -/
def insertDescBy {α : Type} (key : α → ℚ) (x : α) : List α → List α
  | [] => [x]
  | y :: ys => if key x < key y then y :: insertDescBy key x ys else x :: y :: ys

/-- Stable sort, descending by `key` (models Python stable `sorted` with
`reverse=True`). -/
def sortDescBy {α : Type} (key : α → ℚ) : List α → List α
  | [] => []
  | x :: xs => insertDescBy key x (sortDescBy key xs)

/-- The language pool both matching entry points build: the browser language
plus the preferred languages when that list is truthy (an absent and an empty
list contribute nothing alike). -/
def user_languages (p : UserProfile) : List String :=
  [p.browser_info.language] ++
    (match p.browser_info.preferred_languages with
     | none => []
     | some ls => ls)

/-- The top-5 expertise domains by score (descending, stable), as both
matching entry points compute them. -/
def top_domains (p : UserProfile) : List String :=
  ((sortDescBy Prod.snd p.expertise.domains).take 5).map Prod.fst

/-- Per-task match score of `TaskService.find_task_for_user`
(src/app/services/task_service.py, lines 157-180): +2 language, +3 topic,
always minus the complexity difference, +1 per matching history map. -/
def find_task_score (p : UserProfile) (t : TaskInDB) : ℚ :=
  let score : ℚ := 0
  let score := if t.language ∈ user_languages p then score + 2 else score
  let score := if t.topic ∈ top_domains p then score + 3 else score
  let complexity_diff := ratAbs ((t.complexity : ℚ) - p.expertise.technical_level * 5)
  let score := score - complexity_diff
  let score :=
    if t.category ∈ p.task_history.categories_completed.map Prod.fst then score + 1 else score
  if t.type ∈ p.task_history.task_types_completed.map Prod.fst then score + 1 else score

/-- Per-task match score of `TaskService.match_tasks_to_user`
(src/app/services/task_service.py, lines 211-246): like `find_task_score`
except the complexity rule awards +2 when the difference is at most 1 and
subtracts it otherwise. -/
def match_task_score (p : UserProfile) (t : TaskInDB) : ℚ :=
  let score : ℚ := 0
  let score := if t.language ∈ user_languages p then score + 2 else score
  let score := if t.topic ∈ top_domains p then score + 3 else score
  let user_expertise := p.expertise.technical_level * 5
  let complexity_diff := ratAbs ((t.complexity : ℚ) - user_expertise)
  let score := if complexity_diff ≤ 1 then score + 2 else score - complexity_diff
  let score :=
    if t.category ∈ p.task_history.categories_completed.map Prod.fst then score + 1 else score
  if t.type ∈ p.task_history.task_types_completed.map Prod.fst then score + 1 else score

/-- Reason strings of `match_tasks_to_user`; the Python decimal formatting of
the expertise value is abstracted by `toString` of the exact rational. -/
def match_reasons (p : UserProfile) (t : TaskInDB) : List String :=
  let r₁ :=
    if t.language ∈ user_languages p then ["Language match: " ++ t.language] else []
  let r₂ := if t.topic ∈ top_domains p then ["Topic match: " ++ t.topic] else []
  let user_expertise := p.expertise.technical_level * 5
  let complexity_diff := ratAbs ((t.complexity : ℚ) - user_expertise)
  let r₃ :=
    if complexity_diff ≤ 1 then
      ["Complexity suitable: " ++ toString t.complexity ++ " vs expertise "
        ++ toString user_expertise]
    else if user_expertise < (t.complexity : ℚ) then
      ["Task may be too difficult: " ++ toString t.complexity ++ " vs expertise "
        ++ toString user_expertise]
    else
      ["Task may be too easy: " ++ toString t.complexity ++ " vs expertise "
        ++ toString user_expertise]
  let r₄ :=
    if t.category ∈ p.task_history.categories_completed.map Prod.fst then
      ["User has experience with " ++ t.category ++ " tasks"]
    else []
  let r₅ :=
    if t.type ∈ p.task_history.task_types_completed.map Prod.fst then
      ["User has experience with " ++ t.type ++ " tasks"]
    else []
  r₁ ++ r₂ ++ r₃ ++ r₄ ++ r₅

/-- Insert into a queue snapshot sorted ascending by score, ties broken by
member string (one step of the Redis `zrange` ordering). -/
def insertQueueAsc (x : String × ℚ) : List (String × ℚ) → List (String × ℚ)
  | [] => [x]
  | y :: ys =>
    if x.2 < y.2 ∨ (x.2 = y.2 ∧ x.1 ≤ y.1) then x :: y :: ys else y :: insertQueueAsc x ys

/-- The order in which `zrange` serves sorted-set members: ascending score,
ties by member string. -/
def sortQueueAsc : List (String × ℚ) → List (String × ℚ)
  | [] => []
  | x :: xs => insertQueueAsc x (sortQueueAsc xs)

/-- Candidate window (src/app/utils/redis_client.py,
`RedisService.get_next_tasks`): the first `count` queue members in `zrange`
order, resolved through the store, dropping dangling ids. -/
def get_next_tasks (s : EngineState) (count : ℕ) : List TaskInDB :=
  (((sortQueueAsc s.queue).take count).map Prod.fst).filterMap
    (fun task_id => lookupKey task_id s.store)

/-- Single-best matching entry point (src/app/services/task_service.py,
`TaskService.find_task_for_user`): score the 20-task candidate window, stable
sort descending by score, return the head if any. -/
def find_task_for_user (s : EngineState) (p : UserProfile) : Option TaskInDB :=
  let tasks := get_next_tasks s 20
  let task_scores := tasks.map (fun t => (t, find_task_score p t))
  let task_scores := sortDescBy Prod.snd task_scores
  task_scores.head?.map Prod.fst

/-- Ranked matching entry point (src/app/services/task_service.py,
`TaskService.match_tasks_to_user`): score the same 20-task candidate window,
stable sort descending by score, truncate to `limit`. -/
def match_tasks_to_user (s : EngineState) (p : UserProfile) (limit : ℕ) : List UserTaskMatch :=
  let tasks := get_next_tasks s 20
  let scored := tasks.map (fun t =>
    { task_id := t.task_id
      session_id := p.session_id
      match_score := match_task_score p t
      match_reasons := match_reasons p t : UserTaskMatch })
  (sortDescBy UserTaskMatch.match_score scored).take limit

/-- An engine operation: the four state-mutating entry points the claims range
over.  `create` is the creation flow of the tasks router (`create_task` then a
background `queue_task` of the created record). -/
inductive EngineOp
  | create (now : ℚ) (tc : TaskCreate)
  | assign (now : ℚ) (task_id session_id : String)
  | updateStatus (now : ℚ) (task_id : String) (status : TaskStatus)
  | sweep (now : ℚ)
deriving DecidableEq

/-- Apply one engine operation to the state. -/
def applyOp (s : EngineState) : EngineOp → EngineState
  | .create now tc =>
    let res := create_task s now tc
    queue_task res.2 res.1
  | .assign now task_id session_id => (assign_task s now task_id session_id).2
  | .updateStatus now task_id status => (update_task_status s now task_id status).2
  | .sweep now => (process_expired_tasks s now).1

/-- Run a sequence of engine operations. -/
def runOps (s : EngineState) (ops : List EngineOp) : EngineState :=
  ops.foldl applyOp s

/-- The empty initial state: no tasks stored, empty queue. -/
def initState : EngineState := { store := [], queue := [] }

/-- Key selection step of `list_tasks`: load a key and keep the record when it
passes the optional status filter. -/
def listSelect (s : EngineState) (status : Option TaskStatus) (k : String) : Option TaskInDB :=
  match lookupKey k s.store with
  | none => none
  | some t => if status = none ∨ status = some t.status then some t else none

/-- A concrete pending task used to instantiate the theorems on sample states. -/
def sampleTask : TaskInDB :=
  { task_id := "t1"
    track_id := "tr1"
    language := "en"
    category := "text"
    type := "multiple-choice"
    topic := "science"
    complexity := 1
    status := .pending
    created_at := 0
    updated_at := 0 }

/-- `sampleTask` under an active lease held by session `"alice"` since time 0. -/
def leasedTask : TaskInDB :=
  { sampleTask with
    status := .assigned
    assigned_to := some "alice"
    assigned_at := some (0 : ℚ)
    expires_at := some (600 : ℚ) }

/-- A one-task state whose only task is leased to `"alice"`. -/
def leasedState : EngineState := { store := [("t1", leasedTask)], queue := [] }

/-- A one-task state whose pending task sits in the queue at its creation
priority `10 − 2·1 = 8`. -/
def queuedState : EngineState := { store := [("t1", sampleTask)], queue := [("t1", 8)] }

/-- A one-task state whose task is leased to `"alice"` and queued, for
exercising the expiry sweep. -/
def leasedQueuedState : EngineState :=
  { store := [("t1", leasedTask)], queue := [("t1", 8)] }

/-- A completed task under key `"a"`. -/
def completedTaskA : TaskInDB := { sampleTask with task_id := "a", status := .completed }

/-- A pending task under key `"b"`. -/
def pendingTaskB : TaskInDB := { sampleTask with task_id := "b" }

/-- A two-task state: a completed task first, a pending task second. -/
def twoTaskState : EngineState :=
  { store := [("a", completedTaskA), ("b", pendingTaskB)], queue := [] }

/-- A profile with technical level 0.6, no preferred languages, no expertise
domains and no history. -/
def plainProfile : UserProfile :=
  { session_id := "s1"
    browser_info := { user_agent := "ua", language := "en" }
    expertise := { technical_level := 3/5 } }

/-- A task of complexity 3 that matches `plainProfile` on nothing but the
complexity rule (`diff = |3 − 0.6·5| = 0`). -/
def mediumTask : TaskInDB :=
  { sampleTask with
    task_id := "t3"
    language := "fr"
    topic := "offroad"
    category := "audio"
    type := "rating"
    complexity := 3 }

/-- A concrete creation input matching `sampleTask`. -/
def tcDemo : TaskCreate :=
  { task_id := "t1"
    track_id := "tr1"
    language := "en"
    category := "text"
    type := "multiple-choice"
    topic := "science"
    complexity := 1 }

/-- A response counter reporting zero responses for every task. -/
def rcZero : String → ℕ := fun _ => 0

/-- The lease-field part of the data-model invariant: `assigned_to`,
`assigned_at` and `expires_at` are all set or all null on a task record. -/
def leaseFieldsConsistent (t : TaskInDB) : Prop :=
  (t.assigned_to = none ↔ t.assigned_at = none) ∧
  (t.expires_at = none ↔ t.assigned_at = none)

/-- Every task record in the store satisfies the lease-field invariant. -/
def storeConsistent (s : EngineState) : Prop :=
  ∀ e ∈ s.store, leaseFieldsConsistent e.2

theorem lookupKey_setKey {α : Type} (m : List (String × α)) (k k₁ : String) (v : α) :
    lookupKey k₁ (setKey m k v) = if k₁ = k then some v else lookupKey k₁ m := by
  induction m with
  | nil =>
    by_cases h : k₁ = k
    · subst h; simp [setKey, lookupKey]
    · have h' : ¬ k = k₁ := fun he => h he.symm
      simp [setKey, lookupKey, h, h']
  | cons hd tl ih =>
    obtain ⟨k₂, v₂⟩ := hd
    by_cases h₂ : k₂ = k
    · subst h₂
      by_cases h : k₁ = k₂
      · subst h; simp [setKey, lookupKey]
      · have h' : ¬ k₂ = k₁ := fun he => h he.symm
        simp [setKey, lookupKey, h, h']
    · by_cases h : k₁ = k₂
      · subst h
        have hk : ¬ k₁ = k := h₂
        simp [setKey, lookupKey, h₂, hk]
      · have h' : ¬ k₂ = k₁ := fun he => h he.symm
        simp [setKey, lookupKey, h₂, h', ih]

theorem lookupKey_setKey_self {α : Type} (m : List (String × α)) (k : String) (v : α) :
    lookupKey k (setKey m k v) = some v := by
  simp [lookupKey_setKey]

theorem lookupKey_setKey_ne {α : Type} (m : List (String × α)) (k k₁ : String) (v : α)
    (h : k₁ ≠ k) : lookupKey k₁ (setKey m k v) = lookupKey k₁ m := by
  simp [lookupKey_setKey, h]

theorem lookupKey_mem {α : Type} (m : List (String × α)) (k : String) (v : α)
    (h : lookupKey k m = some v) : (k, v) ∈ m := by
  induction m with
  | nil => simp [lookupKey] at h
  | cons hd tl ih =>
    obtain ⟨k₁, v₁⟩ := hd
    by_cases hk : k₁ = k
    · subst hk
      simp [lookupKey] at h
      simp [h]
    · simp [lookupKey, hk] at h
      simp [ih h]

theorem mem_setKey {α : Type} (m : List (String × α)) (k : String) (v : α) :
    ∀ e ∈ setKey m k v, e = (k, v) ∨ e ∈ m := by
  induction m with
  | nil => intro e he; simp [setKey] at he; simp [he]
  | cons hd tl ih =>
    obtain ⟨k₁, v₁⟩ := hd
    intro e he
    by_cases hk : k₁ = k
    · simp [setKey, hk] at he
      rcases he with he | he
      · simp [he]
      · simp [he]
    · simp [setKey, hk] at he
      rcases he with he | he
      · simp [he]
      · rcases ih e he with h | h
        · simp [h]
        · simp [h]

theorem lookupKey_of_mem_nodup {α : Type} (m : List (String × α)) (k : String) (v : α)
    (hmem : (k, v) ∈ m) (hnd : (m.map Prod.fst).Nodup) : lookupKey k m = some v := by
  induction m with
  | nil => simp at hmem
  | cons hd tl ih =>
    obtain ⟨k₁, v₁⟩ := hd
    simp only [List.map_cons, List.nodup_cons] at hnd
    rcases List.mem_cons.1 hmem with h | h
    · injection h with h₁ h₂
      subst h₁
      subst h₂
      simp [lookupKey]
    · have hk : k₁ ≠ k := by
        intro he
        subst he
        exact hnd.1 (List.mem_map.2 ⟨(k₁, v), h, rfl⟩)
      simp [lookupKey, hk, ih h hnd.2]

/-- C8: for every response and task, the quality evaluation returns a score in
[0, 1] equal to 0.5, minus 0.2 when `response_time_ms < 1000`, minus 0.3 when
the task has a known correct answer the response payload does not exactly
equal, clamped to [0, 1]; the derived quality level uses thresholds ≥ 0.8 high,
≥ 0.5 medium, ≥ 0.2 low, else spam; in particular `response_time_ms = 500`
with no known answer yields 0.3 and level low. -/
theorem C8_quality_evaluation (response : ResponseRec) (ca : Option String) :
    (0 ≤ check_response_quality response ca ∧ check_response_quality response ca ≤ 1) ∧
    check_response_quality response ca =
      ratMax 0 (ratMin 1 ((1/2 : ℚ)
        - (if response.response_time_ms < 1000 then 2/10 else 0)
        - (if truthyStr ca ∧ some response.response_data ≠ ca then 3/10 else 0))) ∧
    (∀ q : ℚ, qualityLevel q =
      if 8/10 ≤ q then .high else if 5/10 ≤ q then .medium
      else if 2/10 ≤ q then .low else .spam) ∧
    check_response_quality
      { response_id := "r1", task_id := "t1", session_id := "s1",
        response_data := "x", response_time_ms := 500 } none = 3/10 ∧
    qualityLevel (3/10) = .low := by
  refine ⟨⟨?_, ?_⟩, ?_, fun q => rfl, ?_, ?_⟩
  · simp only [check_response_quality, ratMax, ratMin]
    split_ifs <;> linarith
  · simp only [check_response_quality, ratMax, ratMin]
    split_ifs <;> linarith
  · simp only [check_response_quality]
    by_cases h₁ : response.response_time_ms < 1000 <;>
      by_cases h₂ : truthyStr ca = true ∧ some response.response_data ≠ ca <;>
        simp [h₁, h₂, ratMax, ratMin]
  · simp [check_response_quality, truthyStr, ratMax, ratMin]
    norm_num
  · simp [qualityLevel]
    norm_num

/-- C1: a task whose record exists with status assigned and a (nonempty)
assignee `a` cannot be assigned to a different session `b`: the call returns
no task and leaves the whole state (task record and queue) unchanged. -/
theorem C1_assign_other_worker_denied (s : EngineState) (now : ℚ)
    (task_id a b : String) (t : TaskInDB)
    (hlook : lookupKey task_id s.store = some t)
    (hstatus : t.status = TaskStatus.assigned)
    (hto : t.assigned_to = some a) (ha : a ≠ "") (hb : b ≠ a) :
    assign_task s now task_id b = (none, s) := by
  have hcond : t.status = TaskStatus.assigned ∧
      truthyStr t.assigned_to = true ∧ t.assigned_to ≠ some b := by
    refine ⟨hstatus, ?_, ?_⟩
    · rw [hto]
      simp [truthyStr, ha]
    · rw [hto]
      intro hc
      exact hb (Option.some.inj hc).symm
  simp only [assign_task, hlook]
  rw [if_pos hcond]

theorem C1_assign_other_worker_denied_witness :
    assign_task leasedState 100 "t1" "bob" = (none, leasedState) :=
  C1_assign_other_worker_denied leasedState 100 "t1" "alice" "bob" leasedTask
    rfl rfl rfl (by decide) (by decide)

theorem assign_task_success_eq (s : EngineState) (now : ℚ) (task_id session_id : String)
    (t : TaskInDB) (hlook : lookupKey task_id s.store = some t)
    (hfree : ¬ (t.status = TaskStatus.assigned ∧
      truthyStr t.assigned_to = true ∧ t.assigned_to ≠ some session_id)) :
    assign_task s now task_id session_id =
      (some (leaseStamp t session_id now),
       { s with store := store_task s.store (leaseStamp t session_id now) }) := by
  simp only [assign_task, hlook]
  rw [if_neg hfree]

/-- C2 (amended): a successful assignment of an existing task not held by a
different worker stamps the lease (status assigned, assignee, `assigned_at :=
now`, `expires_at := now + 600` seconds) and persists the record, but leaves
the priority queue untouched (the source never removes queue members). -/
theorem C2_assign_success_sets_lease (s : EngineState) (now : ℚ)
    (task_id session_id : String) (t : TaskInDB)
    (hlook : lookupKey task_id s.store = some t)
    (hfree : ¬ (t.status = TaskStatus.assigned ∧
       truthyStr t.assigned_to = true ∧ t.assigned_to ≠ some session_id))
    (hid : t.task_id = task_id) (hne : task_id ≠ "") :
    (assign_task s now task_id session_id).1 = some (leaseStamp t session_id now) ∧
    (leaseStamp t session_id now).status = TaskStatus.assigned ∧
    (leaseStamp t session_id now).assigned_to = some session_id ∧
    (leaseStamp t session_id now).assigned_at = some now ∧
    (leaseStamp t session_id now).expires_at = some (now + 600) ∧
    (assign_task s now task_id session_id).2.store =
      setKey s.store task_id (leaseStamp t session_id now) ∧
    (assign_task s now task_id session_id).2.queue = s.queue := by
  rw [assign_task_success_eq s now task_id session_id t hlook hfree]
  refine ⟨rfl, rfl, rfl, rfl, rfl, ?_, rfl⟩
  simp only [store_task, leaseStamp, hid]
  rw [if_neg hne]

theorem C2_assign_success_sets_lease_witness :
    (assign_task queuedState 0 "t1" "w1").1 = some (leaseStamp sampleTask "w1" 0) ∧
    (leaseStamp sampleTask "w1" 0).status = TaskStatus.assigned ∧
    (leaseStamp sampleTask "w1" 0).assigned_to = some "w1" ∧
    (leaseStamp sampleTask "w1" 0).assigned_at = some (0 : ℚ) ∧
    (leaseStamp sampleTask "w1" 0).expires_at = some ((0 : ℚ) + 600) ∧
    (assign_task queuedState 0 "t1" "w1").2.store =
      setKey queuedState.store "t1" (leaseStamp sampleTask "w1" 0) ∧
    (assign_task queuedState 0 "t1" "w1").2.queue = queuedState.queue :=
  C2_assign_success_sets_lease queuedState 0 "t1" "w1" sampleTask
    rfl (by decide) rfl (by decide)

/-- C2 counterexample: assigning the queued pending task succeeds, yet the
task stays in the priority queue at its old score — the queue member is not
removed as the claim states. -/
theorem C2_counterexample :
    (assign_task queuedState 0 "t1" "w1").1.isSome = true ∧
    (assign_task queuedState 0 "t1" "w1").2.queue = [("t1", 8)] := by decide

/-- C6 counterexample: re-assigning the task already leased to `"alice"` by
the same session `"alice"` does not return the existing lease unchanged: the
stored record's `assigned_at` moves from 0 to the new call time 60. -/
theorem C6_counterexample :
    ((assign_task leasedState 60 "t1" "alice").1.map TaskInDB.assigned_at)
        = some (some 60) ∧
    (lookupKey "t1" (assign_task leasedState 60 "t1" "alice").2.store).map
        TaskInDB.assigned_at = some (some 60) ∧
    leasedTask.assigned_at = some 0 ∧ ((60 : ℚ)) ≠ 0 := by decide

/-- C6 (amended): re-assignment by the same worker succeeds but refreshes the
lease rather than returning it unchanged: the returned and persisted record
carries `assigned_at := now` and `expires_at := now + 600` for the new call
time. -/
theorem C6_same_worker_reassign_restamps (s : EngineState) (now : ℚ)
    (task_id w : String) (t : TaskInDB)
    (hlook : lookupKey task_id s.store = some t)
    (_hstatus : t.status = TaskStatus.assigned)
    (hto : t.assigned_to = some w)
    (hid : t.task_id = task_id) (hne : task_id ≠ "") :
    (assign_task s now task_id w).1 = some (leaseStamp t w now) ∧
    (leaseStamp t w now).assigned_at = some now ∧
    (leaseStamp t w now).expires_at = some (now + 600) ∧
    (assign_task s now task_id w).2.store =
      setKey s.store task_id (leaseStamp t w now) := by
  have hfree : ¬ (t.status = TaskStatus.assigned ∧
      truthyStr t.assigned_to = true ∧ t.assigned_to ≠ some w) := by
    rintro ⟨-, -, hne'⟩
    exact hne' (by rw [hto])
  rw [assign_task_success_eq s now task_id w t hlook hfree]
  refine ⟨rfl, rfl, rfl, ?_⟩
  simp only [store_task, leaseStamp, hid]
  rw [if_neg hne]

theorem C6_same_worker_reassign_restamps_witness :
    (assign_task leasedState 60 "t1" "alice").1 = some (leaseStamp leasedTask "alice" 60) ∧
    (leaseStamp leasedTask "alice" 60).assigned_at = some (60 : ℚ) ∧
    (leaseStamp leasedTask "alice" 60).expires_at = some ((60 : ℚ) + 600) ∧
    (assign_task leasedState 60 "t1" "alice").2.store =
      setKey leasedState.store "t1" (leaseStamp leasedTask "alice" 60) :=
  C6_same_worker_reassign_restamps leasedState 60 "t1" "alice" leasedTask
    rfl rfl rfl rfl (by decide)

/-- C5 counterexample: for a profile of technical level 0.6 and a task of
complexity 3 (difference 0) matching on nothing else, `find_task_for_user`
scores 0 while `match_tasks_to_user` scores 2: the two entry points do not
compute the same score. -/
theorem C5_counterexample :
    find_task_score plainProfile mediumTask = 0 ∧
    match_task_score plainProfile mediumTask = 2 ∧
    find_task_score plainProfile mediumTask ≠ match_task_score plainProfile mediumTask := by
  refine ⟨?_, ?_, ?_⟩ <;>
    simp [find_task_score, match_task_score, user_languages, top_domains, sortDescBy,
      plainProfile, mediumTask, sampleTask, ratAbs]

/-- C5 (amended): the two matching entry points score language, topic and
history identically, but complexity differently: `match_tasks_to_user` adds
+2 when the complexity difference is at most 1 where `find_task_for_user`
always subtracts the difference, so the scores agree exactly when the
difference exceeds 1 and otherwise differ by `2 + diff`. -/
theorem C5_score_relation (p : UserProfile) (t : TaskInDB) :
    match_task_score p t =
      find_task_score p t +
        (if ratAbs ((t.complexity : ℚ) - p.expertise.technical_level * 5) ≤ 1 then
           2 + ratAbs ((t.complexity : ℚ) - p.expertise.technical_level * 5)
         else 0) := by
  simp only [match_task_score, find_task_score]
  split_ifs <;> ring

theorem listLoop_eq (s : EngineState) (status : Option TaskStatus)
    (keys : List String) (acc : List TaskInDB) :
    listLoop s status keys acc = acc ++ keys.filterMap (listSelect s status) := by
  induction keys generalizing acc with
  | nil => simp [listLoop]
  | cons k rest ih =>
    simp only [listLoop, List.filterMap_cons, listSelect]
    cases h : lookupKey k s.store with
    | none => simp [h, ih]
    | some t =>
      by_cases hs : status = none ∨ status = some t.status
      · simp [h, hs, ih]
      · simp [h, hs, ih]

theorem sweepTask_eq_some (now : ℚ) (t u : TaskInDB) (h : sweepTask now t = some u) :
    u = { t with status := TaskStatus.expired, updated_at := now } ∧
    t.status = TaskStatus.assigned := by
  unfold sweepTask at h
  by_cases hc : t.status = TaskStatus.assigned ∧ t.expires_at.isSome = true
  · rw [if_pos hc] at h
    cases he : t.expires_at with
    | none => rw [he] at h; simp at h
    | some e =>
      simp only [he] at h
      by_cases hlt : e < now
      · rw [if_pos hlt] at h
        exact ⟨(Option.some.inj h).symm, hc.1⟩
      · rw [if_neg hlt] at h; simp at h
  · rw [if_neg hc] at h; simp at h

theorem sweepTask_of_unassigned (now : ℚ) (t : TaskInDB)
    (hst : t.status ≠ TaskStatus.assigned) : sweepTask now t = none := by
  unfold sweepTask
  rw [if_neg]
  rintro ⟨h₁, -⟩
  exact hst h₁

theorem sweepTask_of_expired (now : ℚ) (t : TaskInDB) (e : ℚ)
    (hst : t.status = TaskStatus.assigned) (he : t.expires_at = some e) (hlt : e < now) :
    sweepTask now t = some { t with status := TaskStatus.expired, updated_at := now } := by
  unfold sweepTask
  rw [if_pos ⟨hst, by rw [he]; rfl⟩]
  simp only [he]
  rw [if_pos hlt]

theorem sweepStep_store_stable (now : ℚ) (sc : EngineState × ℕ) (k₀ k : String)
    (t : TaskInDB) (hlook : lookupKey k sc.1.store = some t)
    (hst : t.status ≠ TaskStatus.assigned) :
    lookupKey k (sweepStep now sc k₀).1.store = some t := by
  cases hl : lookupKey k₀ sc.1.store with
  | none => simp only [sweepStep, hl]; exact hlook
  | some u =>
    cases hu : sweepTask now u with
    | none => simp only [sweepStep, hl, hu]; exact hlook
    | some u' =>
      simp only [sweepStep, hl, hu]
      by_cases hk : k = k₀
      · subst hk
        rw [hl] at hlook
        have htu : u = t := Option.some.inj hlook
        subst htu
        rw [sweepTask_of_unassigned now u hst] at hu
        simp at hu
      · rw [lookupKey_setKey_ne _ _ _ _ hk]
        exact hlook

theorem sweep_foldl_store_stable (now : ℚ) (keys : List String)
    (sc : EngineState × ℕ) (k : String) (t : TaskInDB)
    (hlook : lookupKey k sc.1.store = some t)
    (hst : t.status ≠ TaskStatus.assigned) :
    lookupKey k (keys.foldl (sweepStep now) sc).1.store = some t := by
  induction keys generalizing sc with
  | nil => exact hlook
  | cons k₀ rest ih =>
    simp only [List.foldl_cons]
    exact ih _ (sweepStep_store_stable now sc k₀ k t hlook hst)

theorem sweepStep_store_ne (now : ℚ) (sc : EngineState × ℕ) (k₀ k : String)
    (hk : k ≠ k₀) :
    lookupKey k (sweepStep now sc k₀).1.store = lookupKey k sc.1.store := by
  cases hl : lookupKey k₀ sc.1.store with
  | none => simp only [sweepStep, hl]
  | some u =>
    cases hu : sweepTask now u with
    | none => simp only [sweepStep, hl, hu]
    | some u' =>
      simp only [sweepStep, hl, hu]
      exact lookupKey_setKey_ne _ _ _ _ hk

theorem sweep_foldl_store_ne (now : ℚ) (keys : List String) (sc : EngineState × ℕ)
    (k : String) (hk : k ∉ keys) :
    lookupKey k (keys.foldl (sweepStep now) sc).1.store = lookupKey k sc.1.store := by
  induction keys generalizing sc with
  | nil => rfl
  | cons k₀ rest ih =>
    simp only [List.foldl_cons]
    rw [ih _ (fun h => hk (List.mem_cons.2 (Or.inr h)))]
    exact sweepStep_store_ne now sc k₀ k (fun h => hk (List.mem_cons.2 (Or.inl h)))

theorem sweepStep_queue_five (now : ℚ) (sc : EngineState × ℕ) (k₀ tid : String)
    (h : lookupKey tid sc.1.queue = some 5) :
    lookupKey tid (sweepStep now sc k₀).1.queue = some 5 := by
  cases hl : lookupKey k₀ sc.1.store with
  | none => simp only [sweepStep, hl]; exact h
  | some u =>
    cases hu : sweepTask now u with
    | none => simp only [sweepStep, hl, hu]; exact h
    | some u' =>
      simp only [sweepStep, hl, hu]
      by_cases hid : u'.task_id = ""
      · rw [if_pos hid]; exact h
      · rw [if_neg hid]
        by_cases hk : tid = u'.task_id
        · subst hk
          exact lookupKey_setKey_self _ _ _
        · rw [lookupKey_setKey_ne _ _ _ _ hk]
          exact h

theorem sweep_foldl_queue_five (now : ℚ) (keys : List String) (sc : EngineState × ℕ)
    (tid : String) (h : lookupKey tid sc.1.queue = some 5) :
    lookupKey tid (keys.foldl (sweepStep now) sc).1.queue = some 5 := by
  induction keys generalizing sc with
  | nil => exact h
  | cons k₀ rest ih =>
    simp only [List.foldl_cons]
    exact ih _ (sweepStep_queue_five now sc k₀ tid h)

theorem mem_first_split {α : Type} [DecidableEq α] (a : α) (l : List α) (h : a ∈ l) :
    ∃ l₁ l₂, l = l₁ ++ a :: l₂ ∧ a ∉ l₁ := by
  induction l with
  | nil => simp at h
  | cons b rest ih =>
    by_cases hb : b = a
    · subst hb
      exact ⟨[], rest, rfl, by simp⟩
    · have h' : a ∈ rest := by
        rcases List.mem_cons.1 h with h' | h'
        · exact absurd h'.symm hb
        · exact h'
      obtain ⟨l₁, l₂, heq, hnot⟩ := ih h'
      refine ⟨b :: l₁, l₂, by rw [heq]; rfl, ?_⟩
      intro hmem
      rcases List.mem_cons.1 hmem with h'' | h''
      · exact hb h''.symm
      · exact hnot h''

theorem lookupKey_mem_keys {α : Type} (m : List (String × α)) (k : String) (v : α)
    (h : lookupKey k m = some v) : k ∈ m.map Prod.fst :=
  List.mem_map.2 ⟨(k, v), lookupKey_mem m k v h, rfl⟩

theorem list_tasks_status (s : EngineState) (σ : TaskStatus) (lim off : ℕ)
    (u : TaskInDB) (hu : u ∈ list_tasks s (some σ) lim off) : u.status = σ := by
  simp only [list_tasks] at hu
  rw [listLoop_eq] at hu
  simp only [List.nil_append] at hu
  rcases List.mem_filterMap.1 hu with ⟨k, -, hk⟩
  unfold listSelect at hk
  split at hk
  · exact absurd hk (by simp)
  · split at hk
    · rename_i t heq hs
      injection hk with hk
      subst hk
      rcases hs with hs | hs
      · exact absurd hs (by simp)
      · exact (Option.some.inj hs).symm
    · exact absurd hk (by simp)

/-- C4 counterexample: sweeping the state whose lease expired at 600 at time
700 leaves the stored task with status expired — not pending as the claim
states — while re-enqueueing it at priority exactly 5.0. -/
theorem C4_counterexample :
    (lookupKey "t1" ((process_expired_tasks leasedQueuedState 700).1).store).map
        TaskInDB.status = some TaskStatus.expired ∧
    (lookupKey "t1" ((process_expired_tasks leasedQueuedState 700).1).store).map
        TaskInDB.status ≠ some TaskStatus.pending ∧
    lookupKey "t1" ((process_expired_tasks leasedQueuedState 700).1).queue = some 5 := by
  decide

/-- C4 (amended): one sweep run marks every assigned task whose lease is
strictly past due as expired (status remains expired, not pending), persists
it, re-enqueues it at priority exactly 5.0, and the task no longer appears in
any assigned listing; a per-task read failure skips only that key and the
remaining keys are processed unchanged. -/
theorem C4_sweep_requeues_expired (s : EngineState) (now : ℚ) (tid : String)
    (t : TaskInDB) (e : ℚ)
    (hlook : lookupKey tid s.store = some t)
    (hst : t.status = TaskStatus.assigned)
    (hexp : t.expires_at = some e) (hlt : e < now)
    (hid : t.task_id = tid) (hne : tid ≠ "") :
    lookupKey tid (process_expired_tasks s now).1.store =
      some { t with status := TaskStatus.expired, updated_at := now } ∧
    lookupKey tid (process_expired_tasks s now).1.queue = some 5 ∧
    (∀ (lim off : ℕ),
      { t with status := TaskStatus.expired, updated_at := now } ∉
        list_tasks (process_expired_tasks s now).1 (some TaskStatus.assigned) lim off) ∧
    (∀ (keys : List String) (sc : EngineState × ℕ) (k : String),
      lookupKey k sc.1.store = none →
      (k :: keys).foldl (sweepStep now) sc = keys.foldl (sweepStep now) sc) := by
  have hmemk : tid ∈ s.store.map Prod.fst := lookupKey_mem_keys s.store tid t hlook
  obtain ⟨L₁, L₂, hsplit, hnot₁⟩ := mem_first_split tid _ hmemk
  have hfold : process_expired_tasks s now =
      L₂.foldl (sweepStep now) (sweepStep now (L₁.foldl (sweepStep now) (s, 0)) tid) := by
    rw [process_expired_tasks, hsplit, List.foldl_append, List.foldl_cons]
  have h₁ : lookupKey tid (L₁.foldl (sweepStep now) (s, 0)).1.store = some t := by
    rw [sweep_foldl_store_ne now L₁ (s, 0) tid hnot₁]
    exact hlook
  have hstep : sweepStep now (L₁.foldl (sweepStep now) (s, 0)) tid =
      ({ store := setKey (L₁.foldl (sweepStep now) (s, 0)).1.store tid
                    { t with status := TaskStatus.expired, updated_at := now }
         queue := setKey (L₁.foldl (sweepStep now) (s, 0)).1.queue tid 5 },
       (L₁.foldl (sweepStep now) (s, 0)).2 + 1) := by
    simp only [sweepStep, h₁, sweepTask_of_expired now t e hst hexp hlt, hid]
    rw [if_neg hne]
  refine ⟨?_, ?_, ?_, ?_⟩
  · rw [hfold, hstep]
    exact sweep_foldl_store_stable now L₂ _ tid _ (lookupKey_setKey_self _ _ _)
      (fun hcontra => TaskStatus.noConfusion hcontra)
  · rw [hfold, hstep]
    exact sweep_foldl_queue_five now L₂ _ tid (lookupKey_setKey_self _ _ _)
  · intro lim off hmem
    have hstatus := list_tasks_status _ _ lim off _ hmem
    simp at hstatus
  · intro keys sc k hk
    rw [List.foldl_cons]
    have hstepnone : sweepStep now sc k = sc := by
      simp only [sweepStep, hk]
    rw [hstepnone]

theorem C4_sweep_requeues_expired_witness :
    lookupKey "t1" (process_expired_tasks leasedQueuedState 700).1.store =
      some { leasedTask with status := TaskStatus.expired, updated_at := 700 } ∧
    lookupKey "t1" (process_expired_tasks leasedQueuedState 700).1.queue = some 5 :=
  ⟨(C4_sweep_requeues_expired leasedQueuedState 700 "t1" leasedTask 600
      rfl rfl rfl (by decide) rfl (by decide)).1,
   (C4_sweep_requeues_expired leasedQueuedState 700 "t1" leasedTask 600
      rfl rfl rfl (by decide) rfl (by decide)).2.1⟩

theorem rebalanceStep_queue_ne (store : List (String × TaskInDB)) (now : ℚ)
    (rc : String → ℕ) (acc : List (String × ℚ) × ℕ × ℕ) (entry : String × ℚ)
    (tid : String) (hne : tid ≠ entry.1) :
    lookupKey tid (rebalanceStep store now rc acc entry).1 = lookupKey tid acc.1 := by
  cases hl : lookupKey entry.1 store with
  | none => simp only [rebalanceStep, hl]
  | some t =>
    simp only [rebalanceStep, hl]
    split_ifs
    · exact lookupKey_setKey_ne _ _ _ _ hne
    · rfl

theorem rebalance_foldl_queue_ne (store : List (String × TaskInDB)) (now : ℚ)
    (rc : String → ℕ) (L : List (String × ℚ)) (acc : List (String × ℚ) × ℕ × ℕ)
    (tid : String) (hnot : tid ∉ L.map Prod.fst) :
    lookupKey tid (L.foldl (rebalanceStep store now rc) acc).1 = lookupKey tid acc.1 := by
  induction L generalizing acc with
  | nil => rfl
  | cons entry rest ih =>
    simp only [List.map_cons, List.mem_cons] at hnot
    push_neg at hnot
    simp only [List.foldl_cons]
    rw [ih _ hnot.2]
    exact rebalanceStep_queue_ne store now rc acc entry tid hnot.1

/-- C7: for every task that stays in the queue across a rebalancer run, the
recomputed priority is the snapshot priority plus an age boost
`min(ageHours/24, 5)` and a response boost `max(5 − responseCount, 0)`, both
non-negative for a task created in the past; the new value is written back
only when it differs from the old one by more than 1.0, and in either case
the stored priority never decreases. -/
theorem C7_rebalance_monotone (s : EngineState) (now : ℚ) (rc : String → ℕ)
    (tid : String) (p : ℚ) (t : TaskInDB)
    (hmem : (tid, p) ∈ s.queue)
    (hnd : (s.queue.map Prod.fst).Nodup)
    (hlook : lookupKey tid s.store = some t)
    (hage : t.created_at ≤ now) :
    0 ≤ ratMin ((now - t.created_at) / 3600 / 24) 5 ∧
    0 ≤ ratMax (5 - (rc tid : ℚ)) 0 ∧
    lookupKey tid (analyze_task_distribution s now rc).1.queue =
      some (if 1 < ratAbs (p + ratMin ((now - t.created_at) / 3600 / 24) 5
                + ratMax (5 - (rc tid : ℚ)) 0 - p)
            then p + ratMin ((now - t.created_at) / 3600 / 24) 5
                + ratMax (5 - (rc tid : ℚ)) 0
            else p) ∧
    p ≤ (if 1 < ratAbs (p + ratMin ((now - t.created_at) / 3600 / 24) 5
              + ratMax (5 - (rc tid : ℚ)) 0 - p)
         then p + ratMin ((now - t.created_at) / 3600 / 24) 5
             + ratMax (5 - (rc tid : ℚ)) 0
         else p) := by
  have hab : 0 ≤ ratMin ((now - t.created_at) / 3600 / 24) 5 := by
    unfold ratMin
    split_ifs
    · have h₀ : 0 ≤ now - t.created_at := by linarith
      exact div_nonneg (div_nonneg h₀ (by norm_num)) (by norm_num)
    · norm_num
  have hrb : 0 ≤ ratMax (5 - (rc tid : ℚ)) 0 := by
    unfold ratMax
    split_ifs with h
    · exact h
    · exact le_refl 0
  have hmono : p ≤ (if 1 < ratAbs (p + ratMin ((now - t.created_at) / 3600 / 24) 5
        + ratMax (5 - (rc tid : ℚ)) 0 - p)
      then p + ratMin ((now - t.created_at) / 3600 / 24) 5
          + ratMax (5 - (rc tid : ℚ)) 0
      else p) := by
    split_ifs
    · linarith
    · exact le_refl p
  have hq₀ : lookupKey tid s.queue = some p := lookupKey_of_mem_nodup s.queue tid p hmem hnd
  obtain ⟨Q₁, Q₂, hsplit, -⟩ := mem_first_split (tid, p) s.queue hmem
  have hkeys : (Q₁.map Prod.fst ++ tid :: Q₂.map Prod.fst).Nodup := by
    have := hnd
    rw [hsplit] at this
    simpa using this
  have htid₁ : tid ∉ Q₁.map Prod.fst := by
    intro hmem₁
    exact (List.disjoint_of_nodup_append hkeys) hmem₁ (List.mem_cons_self _ _)
  have htid₂ : tid ∉ Q₂.map Prod.fst :=
    (List.nodup_cons.1 (List.Nodup.of_append_right hkeys)).1
  have hfold : (analyze_task_distribution s now rc).1.queue =
      (Q₂.foldl (rebalanceStep s.store now rc)
        (rebalanceStep s.store now rc
          (Q₁.foldl (rebalanceStep s.store now rc) (s.queue, 0, 0)) (tid, p))).1 := by
    simp only [analyze_task_distribution]
    rw [hsplit, List.foldl_append, List.foldl_cons]
  have hacc₁ : lookupKey tid (Q₁.foldl (rebalanceStep s.store now rc) (s.queue, 0, 0)).1 =
      some p := by
    rw [rebalance_foldl_queue_ne s.store now rc Q₁ _ tid htid₁]
    exact hq₀
  have hstep : lookupKey tid (rebalanceStep s.store now rc
      (Q₁.foldl (rebalanceStep s.store now rc) (s.queue, 0, 0)) (tid, p)).1 =
      some (if 1 < ratAbs (p + ratMin ((now - t.created_at) / 3600 / 24) 5
              + ratMax (5 - (rc tid : ℚ)) 0 - p)
            then p + ratMin ((now - t.created_at) / 3600 / 24) 5
                + ratMax (5 - (rc tid : ℚ)) 0
            else p) := by
    simp only [rebalanceStep, hlook]
    split_ifs with hcond
    · exact lookupKey_setKey_self _ _ _
    · exact hacc₁
  refine ⟨hab, hrb, ?_, hmono⟩
  rw [hfold, rebalance_foldl_queue_ne s.store now rc Q₂ _ tid htid₂, hstep]

theorem C7_rebalance_monotone_witness :
    0 ≤ ratMin ((0 - sampleTask.created_at) / 3600 / 24) 5 ∧
    (8 : ℚ) ≤ (if 1 < ratAbs (8 + ratMin ((0 - sampleTask.created_at) / 3600 / 24) 5
          + ratMax (5 - (rcZero "t1" : ℚ)) 0 - 8)
        then 8 + ratMin ((0 - sampleTask.created_at) / 3600 / 24) 5
            + ratMax (5 - (rcZero "t1" : ℚ)) 0
        else 8) :=
  ⟨(C7_rebalance_monotone queuedState 0 rcZero "t1" 8 sampleTask
      (by decide) (by decide) rfl (by decide)).1,
   (C7_rebalance_monotone queuedState 0 rcZero "t1" 8 sampleTask
      (by decide) (by decide) rfl (by decide)).2.2.2⟩

/-- C3 counterexample: a task driven through create, assign and a completed
status update is completed before the fourth operation, yet a further assign
moves it back to assigned — an operation does move a task out of the
completed status. -/
theorem C3_counterexample :
    (lookupKey "t1" (runOps initState [EngineOp.create 0 tcDemo,
        EngineOp.assign 0 "t1" "w1",
        EngineOp.updateStatus 1 "t1" TaskStatus.completed]).store).map TaskInDB.status
      = some TaskStatus.completed ∧
    (lookupKey "t1" (runOps initState [EngineOp.create 0 tcDemo,
        EngineOp.assign 0 "t1" "w1",
        EngineOp.updateStatus 1 "t1" TaskStatus.completed,
        EngineOp.assign 2 "t1" "w2"]).store).map TaskInDB.status
      = some TaskStatus.assigned := by
  norm_num [runOps, applyOp, create_task, queue_task, assign_task, update_task_status,
    process_expired_tasks, sweepStep, sweepTask, store_task, leaseStamp, setKey, lookupKey,
    truthyStr, initState, tcDemo]

/-- C3 (amended): the expiry sweep never changes a record that is not
currently assigned (in particular never moves a task out of completed or
rejected), a denied assign leaves the state unchanged, but a successful
assign always produces an assigned record — from any prior status, including
completed, rejected and expired — and a status update stamps exactly the
requested status whatever the previous one was. -/
theorem C3_status_transition_discipline :
    (∀ (s : EngineState) (now : ℚ) (k : String) (t : TaskInDB),
      lookupKey k s.store = some t → t.status ≠ TaskStatus.assigned →
      lookupKey k (process_expired_tasks s now).1.store = some t) ∧
    (∀ (s : EngineState) (now : ℚ) (task_id session_id : String),
      (assign_task s now task_id session_id).1 = none →
      (assign_task s now task_id session_id).2 = s) ∧
    (∀ (s : EngineState) (now : ℚ) (task_id session_id : String) (t : TaskInDB),
      (assign_task s now task_id session_id).1 = some t →
      t.status = TaskStatus.assigned) ∧
    (∀ (s : EngineState) (now : ℚ) (task_id : String) (st : TaskStatus) (t : TaskInDB),
      (update_task_status s now task_id st).1 = some t → t.status = st) := by
  refine ⟨?_, ?_, ?_, ?_⟩
  · intro s now k t hlook hst
    have := sweep_foldl_store_stable now (s.store.map Prod.fst) (s, 0) k t hlook hst
    simpa [process_expired_tasks] using this
  · intro s now task_id session_id h
    cases hl : lookupKey task_id s.store with
    | none => simp [assign_task, hl]
    | some td =>
      by_cases hc : td.status = TaskStatus.assigned ∧
          truthyStr td.assigned_to = true ∧ td.assigned_to ≠ some session_id
      · simp [assign_task, hl, hc]
      · rw [assign_task_success_eq s now task_id session_id td hl hc] at h
        simp at h
  · intro s now task_id session_id t h
    cases hl : lookupKey task_id s.store with
    | none => simp [assign_task, hl] at h
    | some td =>
      by_cases hc : td.status = TaskStatus.assigned ∧
          truthyStr td.assigned_to = true ∧ td.assigned_to ≠ some session_id
      · simp [assign_task, hl, hc] at h
      · rw [assign_task_success_eq s now task_id session_id td hl hc] at h
        simp only [Option.some.injEq] at h
        rw [← h]
        rfl
  · intro s now task_id st t h
    cases hl : lookupKey task_id s.store with
    | none => simp [update_task_status, hl] at h
    | some td =>
      simp only [update_task_status, hl, Option.some.injEq] at h
      rw [← h]
      by_cases hcomp : st = TaskStatus.completed
      · rw [if_pos hcomp]
      · rw [if_neg hcomp]

theorem C3_status_transition_discipline_witness :
    lookupKey "a" (process_expired_tasks twoTaskState 999).1.store = some completedTaskA ∧
    (assign_task leasedState 5 "t1" "bob").2 = leasedState ∧
    (leaseStamp sampleTask "w1" 0).status = TaskStatus.assigned ∧
    TaskStatus.completed = TaskStatus.completed :=
  ⟨C3_status_transition_discipline.1 twoTaskState 999 "a" completedTaskA
      (by decide) (by decide),
   C3_status_transition_discipline.2.1 leasedState 5 "t1" "bob" (by decide),
   C3_status_transition_discipline.2.2.1 queuedState 0 "t1" "w1"
      (leaseStamp sampleTask "w1" 0) rfl,
   C3_status_transition_discipline.2.2.2 leasedState 100 "t1" TaskStatus.completed
      { leasedTask with
        status := TaskStatus.completed
        updated_at := 100
        completed_at := some 100 } rfl⟩

theorem leaseFieldsConsistent_leaseStamp (t : TaskInDB) (sid : String) (now : ℚ) :
    leaseFieldsConsistent (leaseStamp t sid now) := by
  constructor <;> simp [leaseStamp]

theorem storeConsistent_store_task (m : List (String × TaskInDB)) (t : TaskInDB)
    (hm : ∀ e ∈ m, leaseFieldsConsistent e.2) (ht : leaseFieldsConsistent t) :
    ∀ e ∈ store_task m t, leaseFieldsConsistent e.2 := by
  unfold store_task
  split_ifs
  · exact hm
  · intro e he
    rcases mem_setKey _ _ _ e he with he' | he'
    · rw [he']
      exact ht
    · exact hm e he'

theorem sweepStep_consistent (now : ℚ) (sc : EngineState × ℕ) (k : String)
    (h : storeConsistent sc.1) : storeConsistent (sweepStep now sc k).1 := by
  cases hl : lookupKey k sc.1.store with
  | none => simp only [sweepStep, hl]; exact h
  | some u =>
    cases hu : sweepTask now u with
    | none => simp only [sweepStep, hl, hu]; exact h
    | some u' =>
      simp only [sweepStep, hl, hu]
      intro e he
      rcases mem_setKey _ _ _ e he with he' | he'
      · rw [he']
        have hu'' := h (k, u) (lookupKey_mem _ _ _ hl)
        obtain ⟨hequ, -⟩ := sweepTask_eq_some now u u' hu
        rw [hequ]
        exact hu''
      · exact h e he'

theorem sweep_foldl_consistent (now : ℚ) (keys : List String) (sc : EngineState × ℕ)
    (h : storeConsistent sc.1) : storeConsistent ((keys.foldl (sweepStep now) sc).1) := by
  induction keys generalizing sc with
  | nil => exact h
  | cons k rest ih =>
    simp only [List.foldl_cons]
    exact ih _ (sweepStep_consistent now sc k h)

theorem applyOp_consistent (s : EngineState) (op : EngineOp)
    (h : storeConsistent s) : storeConsistent (applyOp s op) := by
  cases op with
  | create now tc =>
    have hfresh : leaseFieldsConsistent
        { task_id := tc.task_id, track_id := tc.track_id, language := tc.language,
          category := tc.category, type := tc.type, topic := tc.topic,
          complexity := tc.complexity, status := TaskStatus.pending,
          created_at := now, updated_at := now } := by
      constructor <;> simp
    simp only [applyOp, create_task, queue_task]
    split_ifs
    · exact storeConsistent_store_task s.store _ h hfresh
    · intro e he
      exact storeConsistent_store_task _ _
        (storeConsistent_store_task s.store _ h hfresh) hfresh e he
  | assign now task_id session_id =>
    simp only [applyOp]
    cases hl : lookupKey task_id s.store with
    | none => simpa [assign_task, hl] using h
    | some td =>
      by_cases hc : td.status = TaskStatus.assigned ∧
          truthyStr td.assigned_to = true ∧ td.assigned_to ≠ some session_id
      · simpa [assign_task, hl, hc] using h
      · rw [assign_task_success_eq s now task_id session_id td hl hc]
        intro e he
        exact storeConsistent_store_task s.store _ h
          (leaseFieldsConsistent_leaseStamp td session_id now) e he
  | updateStatus now task_id st =>
    simp only [applyOp]
    cases hl : lookupKey task_id s.store with
    | none => simpa [update_task_status, hl] using h
    | some td =>
      have htd : leaseFieldsConsistent td := h (task_id, td) (lookupKey_mem _ _ _ hl)
      simp only [update_task_status, hl]
      intro e he
      refine storeConsistent_store_task s.store _ h ?_ e he
      by_cases hcomp : st = TaskStatus.completed
      · rw [if_pos hcomp]
        exact htd
      · rw [if_neg hcomp]
        exact htd
  | sweep now =>
    simp only [applyOp, process_expired_tasks]
    exact sweep_foldl_consistent now _ (s, 0) h

/-- C9 counterexample: after create, assign and an expiry sweep — a reachable
state — the task record has status expired while `expires_at` is still set, so
`expires_at` is not null-only-outside-assigned as the claim states. -/
theorem C9_counterexample :
    (lookupKey "t1" (runOps initState [EngineOp.create 0 tcDemo,
        EngineOp.assign 0 "t1" "w1", EngineOp.sweep 700]).store).map
      (fun t => (t.status, t.expires_at)) = some (TaskStatus.expired, some 600) ∧
    TaskStatus.expired ≠ TaskStatus.assigned := by
  constructor
  · norm_num [runOps, applyOp, create_task, queue_task, assign_task, update_task_status,
      process_expired_tasks, sweepStep, sweepTask, store_task, leaseStamp, setKey, lookupKey,
      truthyStr, initState, tcDemo]
  · decide

/-- C9 (amended): at every state reachable by any sequence of create, assign,
status-update and sweep operations, every task record has `assigned_to`,
`assigned_at` and `expires_at` all set or all null; `expires_at` however may
remain set while the status is no longer assigned (for example after the
sweep marks a task expired). -/
theorem C9_lease_fields_all_or_none (ops : List EngineOp) :
    storeConsistent (runOps initState ops) := by
  have main : ∀ (l : List EngineOp) (s : EngineState),
      storeConsistent s → storeConsistent (runOps s l) := by
    intro l
    induction l with
    | nil => intro s h; exact h
    | cons op rest ih =>
      intro s h
      simp only [runOps, List.foldl_cons]
      exact ih (applyOp s op) (applyOp_consistent s op h)
  refine main ops initState ?_
  intro e he
  simp [initState] at he

/-- C10: `list_tasks` slices the key list by offset and limit before checking
the status filter, returning exactly the matching tasks in that slice; the
result never exceeds `limit` entries, yet (concretely) with one completed and
one pending task, `limit = 1` returns no pending task even though one exists
in the store. -/
theorem C10_list_tasks_slices_before_filter :
    (∀ (s : EngineState) (status : Option TaskStatus) (limit offset : ℕ),
      list_tasks s status limit offset =
        (((s.store.map Prod.fst).drop offset).take limit).filterMap (listSelect s status)) ∧
    (∀ (s : EngineState) (status : Option TaskStatus) (limit offset : ℕ),
      (list_tasks s status limit offset).length ≤ limit) ∧
    (list_tasks twoTaskState (some .pending) 1 0 = [] ∧
      ("b", pendingTaskB) ∈ twoTaskState.store ∧ pendingTaskB.status = .pending) := by
  have heq : ∀ (s : EngineState) (status : Option TaskStatus) (limit offset : ℕ),
      list_tasks s status limit offset =
        (((s.store.map Prod.fst).drop offset).take limit).filterMap (listSelect s status) := by
    intro s status limit offset
    simp [list_tasks, listLoop_eq]
  refine ⟨heq, ?_, by decide, by decide, by decide⟩
  intro s status limit offset
  rw [heq]
  calc ((((s.store.map Prod.fst).drop offset).take limit).filterMap
          (listSelect s status)).length
      ≤ (((s.store.map Prod.fst).drop offset).take limit).length :=
        List.length_filterMap_le _ _
    _ ≤ limit := by
        rw [List.length_take]
        exact min_le_left _ _

end HotLabel
